import Mathlib

/-!
Verification development for the nan0db-fs repository (`DBFS`, a
filesystem-backed document store with a streaming tree-scan engine).

The `DBFS` class itself (`src/DBFS.js`, current revision mirrored by
`types/DBFS.d.ts`) is embedded directly from the JavaScript source.
The streaming scan engine `findStream` lives in the external base class
`@nan0web/db` and is not part of this repository's sources; it is
modelled from the specification (sections 4.1-4.5), as are the external
`nanoweb-fs` codec (`load`/`save`) and node's path arithmetic.

Machine integers do not occur: all byte sizes and timestamps are
non-negative JavaScript numbers used only additively, modelled as `Nat`.
-/

namespace DBFS

/-! ### Basic data model (spec section 3)

`DocumentStat` mirrors the `DocumentStat` snapshot of `@nan0web/db`
(external): `size` in bytes, `mtimeMs` epoch milliseconds, the
directory/file flags, an `exists` flag and an optional `error`.
`DocumentEntry` mirrors `DocumentEntry`: normalized root-relative
`path`, `name` (last segment), `depth` and the stat snapshot. -/

/-- Modelled from the spec: the `DocumentStat` snapshot of the external
`@nan0web/db` package (spec section 3, "Stat"). `exists_` stands for the
`exists` property (a Lean keyword). -/
structure DocumentStat where
  size : Nat := 0
  mtimeMs : Nat := 0
  isDirectory : Bool := false
  isFile : Bool := false
  exists_ : Bool := false
  error : Option String := none
deriving Repr, DecidableEq

/-- Modelled from the spec: the `DocumentEntry` of the external
`@nan0web/db` package (spec section 3, "Entry"). -/
structure DocumentEntry where
  path : String := ""
  name : String := ""
  depth : Nat := 0
  stat : DocumentStat := {}
deriving Repr, DecidableEq

/-! ### Path arithmetic

Modelled from the spec: the PathResolver component (spec section 2) —
pure path arithmetic over slash-separated, root-relative identifiers.
`node:path`'s `resolve`/`relative`/`extname` are external code; the
model normalizes `.`/`..` segments the way `relative(root,
resolve(root, uri))` does for root-relative URIs. -/

/-- Split a character list at a separator character (the code-point
analogue of `String.split`). -/
def splitCharAux (sep : Char) : List Char → List Char → List String
  | acc, [] => [⟨acc.reverse⟩]
  | acc, c :: cs =>
    if c = sep then ⟨acc.reverse⟩ :: splitCharAux sep [] cs
    else splitCharAux sep (c :: acc) cs

/-- `splitChar sep s` splits `s` at every occurrence of `sep`. -/
def splitChar (sep : Char) (s : String) : List String :=
  splitCharAux sep [] s.data

/-- Non-empty slash-separated segments of a path. -/
def segsOf (p : String) : List String :=
  (splitChar '/' p).filter (fun s => s ≠ "")

/-- Character data of segments joined with `/`. -/
def joinData : List String → List Char
  | [] => []
  | [s] => s.data
  | s :: rest => s.data ++ '/' :: joinData rest

/-- Join segments with `/`. -/
def joinSegs (l : List String) : String :=
  ⟨joinData l⟩

/-- Parent directory path: all segments but the last (`""` at the root).
Spec section 3: `parentPath` is "derived, a lookup key". -/
def parentPath (p : String) : String :=
  joinSegs (segsOf p).dropLast

/-- First path segment: the top-level bucket key of spec section 4.2. -/
def firstSeg (p : String) : String :=
  (segsOf p).headD p

/-- Last path segment (basename). -/
def baseName (p : String) : String :=
  (segsOf p).getLastD p

/-- All proper ancestor directory paths of `p`, from the parent up to
the scan root (spec section 4.2). -/
def ancestorPaths (p : String) : List String :=
  let segs := segsOf p
  ((List.range (segs.length - 1)).map (fun i => joinSegs (segs.take (i + 1)))).reverse

/-- One step of `.`/`..` normalization; the accumulator holds the
already-normalized segments in reverse order. -/
def normStep (acc : List String) (seg : String) : List String :=
  if seg = "" ∨ seg = "." then acc
  else if seg = ".." then
    match acc with
    | [] => [".."]
    | t :: rest => if t = ".." then ".." :: t :: rest else rest
  else seg :: acc

/-- Modelled from the spec: `resolve(uri)` of `DBFS` — the root-relative
normalized path `relative(absolute(), absolute(uri))`, computed by the
external `node:path` functions in the source. `..` segments that escape
the root survive at the front of the result. -/
def resolveUri (uri : String) : String :=
  joinSegs (((splitChar '/' uri).foldl normStep []).reverse)

/-- JavaScript `String.prototype.startsWith`, on code points. -/
def strStartsWith (s p : String) : Bool :=
  p.toList.isPrefixOf s.toList

/-- JavaScript `String.prototype.endsWith`, on code points. -/
def strEndsWith (s p : String) : Bool :=
  p.toList.reverse.isPrefixOf s.toList.reverse

/-- ASCII lower-casing of one character (`String.prototype.toLowerCase`
restricted to the ASCII extensions handled by the loaders/savers). -/
def charToLower (c : Char) : Char :=
  if 65 ≤ c.toNat ∧ c.toNat ≤ 90 then Char.ofNat (c.toNat + 32) else c

/-- ASCII `toLowerCase`. -/
def strToLower (s : String) : String :=
  ⟨s.data.map charToLower⟩

/-- `extname` of `node:path` (external): the extension of the last path
segment, empty for extension-less names and plain dotfiles. -/
def extnameRaw (uri : String) : String :=
  let base := baseName uri
  let parts := splitChar '.' base
  if parts.length ≤ 1 then ""
  else if strStartsWith base "." ∧ parts.length = 2 then ""
  else ⟨'.' :: (parts.getLastD "").data⟩

/-- `DBFS.extname`: `extname(uri).toLowerCase()` (source `extname`). -/
def extnameFn (uri : String) : String :=
  strToLower (extnameRaw uri)

/-! ### JavaScript `Map`

The scan engine's `dirTotals`/`topTotals`/`errors` and the store's
`meta`/`data` caches are JavaScript `Map`s: insertion-ordered, `set`
overwrites an existing key in place and appends a fresh one, `size` is
the number of keys. Modelled as association lists. -/

/-- Insertion-ordered key-value map (JavaScript `Map`). -/
abbrev JSMap (β : Type) := List (String × β)

/-- `Map.prototype.get`. -/
def mapGet {β : Type} (m : JSMap β) (k : String) : Option β :=
  (m.find? (fun p => p.1 = k)).map (fun p => p.2)

/-- `Map.prototype.has`. -/
def mapHas {β : Type} (m : JSMap β) (k : String) : Bool :=
  (mapGet m k).isSome

/-- `Map.prototype.set`: overwrite in place, or append a fresh key. -/
def mapSet {β : Type} (m : JSMap β) (k : String) (v : β) : JSMap β :=
  if mapHas m k then m.map (fun p => if p.1 = k then (k, v) else p)
  else m ++ [(k, v)]

/-- `Map.prototype.delete` (keeping only the other keys). -/
def mapDelete {β : Type} (m : JSMap β) (k : String) : JSMap β :=
  m.filter (fun p => p.1 ≠ k)

/-- Add `n` to the bucket at `k`, creating the bucket if absent. -/
def addTo (m : JSMap Nat) (k : String) (n : Nat) : JSMap Nat :=
  match mapGet m k with
  | some old => mapSet m k (old + n)
  | none => mapSet m k n

/-- Add `n` to the bucket at `k` only when the bucket is already
registered (spec section 4.2: "for every ancestor directory path
already registered in `dirTotals` ... add"). -/
def addIfPresent (m : JSMap Nat) (k : String) (n : Nat) : JSMap Nat :=
  match mapGet m k with
  | some old => mapSet m k (old + n)
  | none => m

/-! ### Scan engine (spec sections 4.1-4.5)

Modelled from the spec: the streaming tree-scan engine `findStream` of
the external `@nan0web/db` base class, absent from this repository's
sources (only its tests are under `src`). The engine consumes the
TreeWalker's ordered entry sequence, buffers and sorts each sibling
group (directory-first, then the requested key/direction, stable),
maintains aggregate counters and the error map, checks the
parent-before-child invariant and enforces the emission limit.
The heuristic `progress` value is explicitly non-normative (spec
sections 4.4 and 9) and is not modelled. -/

/-- Requested sort key (spec section 4.1). -/
inductive SortKey where
  | name
  | mtime
  | size
deriving Repr, DecidableEq

/-- Requested sort direction (spec section 4.1). -/
inductive SortOrder where
  | asc
  | desc
deriving Repr, DecidableEq

/-- Lexicographic code-point comparison of names (JavaScript string
ordering used by the name sort). -/
def lexLe : List Char → List Char → Bool
  | [], _ => true
  | _ :: _, [] => false
  | a :: as, b :: bs =>
    if a.toNat = b.toNat then lexLe as bs
    else decide (a.toNat < b.toNat)

/-- Name comparison on strings. -/
def strLeB (a b : String) : Bool :=
  lexLe a.data b.data

/-- Directory-first rank: directories sort before non-directories. -/
def dirRank (e : DocumentEntry) : Nat :=
  if e.stat.isDirectory then 0 else 1

/-- The requested secondary comparison (spec section 4.1). -/
def keyLeB : SortKey → SortOrder → DocumentEntry → DocumentEntry → Bool
  | .name, .asc, a, b => strLeB a.name b.name
  | .name, .desc, a, b => strLeB b.name a.name
  | .mtime, .asc, a, b => decide (a.stat.mtimeMs ≤ b.stat.mtimeMs)
  | .mtime, .desc, a, b => decide (b.stat.mtimeMs ≤ a.stat.mtimeMs)
  | .size, .asc, a, b => decide (a.stat.size ≤ b.stat.size)
  | .size, .desc, a, b => decide (b.stat.size ≤ a.stat.size)

/-- Emission order within one sibling group: directory-first takes
precedence over the requested key/direction (spec section 4.1). -/
def entLe (s : SortKey) (o : SortOrder) (a b : DocumentEntry) : Prop :=
  dirRank a < dirRank b ∨ (dirRank a = dirRank b ∧ keyLeB s o a b = true)

instance (s : SortKey) (o : SortOrder) : DecidableRel (entLe s o) :=
  fun a b => by unfold entLe; infer_instance

/-- Stable sort of one sibling group (spec section 4.1: ties broken by
original discovery order). -/
def sortGroup (s : SortKey) (o : SortOrder) (g : List DocumentEntry) : List DocumentEntry :=
  List.insertionSort (entLe s o) g

/-- The sibling-group key: same parent, same depth (spec section 4.1). -/
def siblingKey (e : DocumentEntry) : String × Nat :=
  (parentPath e.path, e.depth)

/-- Buffers the currently open sibling group until the next entry has a
different parent or depth, or the walk ends (spec section 4.1). -/
def groupAux : List DocumentEntry → String × Nat → List DocumentEntry → List (List DocumentEntry)
  | [], _, acc => [acc.reverse]
  | x :: xs, k, acc =>
    if siblingKey x = k then groupAux xs k (x :: acc)
    else acc.reverse :: groupAux xs (siblingKey x) [x]

/-- Partition of the walked sequence into consecutive sibling groups. -/
def groupSiblings : List DocumentEntry → List (List DocumentEntry)
  | [] => []
  | x :: xs => groupAux xs (siblingKey x) [x]

/-- The order in which the engine emits entries: each sibling group is
drained, sorted and emitted before the next opens. -/
def emissionOrder (s : SortKey) (o : SortOrder) (entries : List DocumentEntry) : List DocumentEntry :=
  ((groupSiblings entries).map (sortGroup s o)).flatten

/-- The scan's ephemeral aggregate state (spec section 3, `ScanState`). -/
structure ScanState where
  dirTotals : JSMap Nat := []
  topTotals : JSMap Nat := []
  totalDirs : Nat := 0
  totalFiles : Nat := 0
  errors : JSMap String := []
  emittedCount : Nat := 0
deriving Repr, DecidableEq

/-- One emitted result: the entry plus snapshots of the aggregates
(spec section 6, scan engine entry point). -/
structure ScanResult where
  file : DocumentEntry
  dirs : JSMap Nat
  top : JSMap Nat
  totalSize : Nat × Nat
  errors : JSMap String
deriving Repr, DecidableEq

/-- The aggregate-state update of one emission (spec section 4.2): a
stat error is recorded and excluded from every aggregate; a directory
registers in `dirTotals`/`topTotals` and adds its size to
`totals.dirs`; a file adds its size to `totals.files`, to every
registered ancestor directory and to its top-level bucket. -/
def stepState (st : ScanState) (e : DocumentEntry) : ScanState :=
  match e.stat.error with
  | some err =>
    { st with errors := mapSet st.errors e.path err,
              emittedCount := st.emittedCount + 1 }
  | none =>
    if e.stat.isDirectory then
      { st with dirTotals := mapSet st.dirTotals e.path 0,
                topTotals := addTo st.topTotals (firstSeg e.path) e.stat.size,
                totalDirs := st.totalDirs + e.stat.size,
                emittedCount := st.emittedCount + 1 }
    else
      { st with totalFiles := st.totalFiles + e.stat.size,
                dirTotals := (ancestorPaths e.path).foldl
                  (fun m a => addIfPresent m a e.stat.size) st.dirTotals,
                topTotals := addTo st.topTotals (firstSeg e.path) e.stat.size,
                emittedCount := st.emittedCount + 1 }

/-- The result emitted for `e`: the entry plus aggregate snapshots. -/
def mkResult (e : DocumentEntry) (st1 : ScanState) : ScanResult :=
  { file := e, dirs := st1.dirTotals, top := st1.topTotals,
    totalSize := (st1.totalDirs, st1.totalFiles), errors := st1.errors }

/-- Emitting one entry (spec sections 4.2-4.3): a missing parent
directory aborts the scan, otherwise the aggregates advance and the
entry is emitted with the new snapshots. -/
def stepEntry (st : ScanState) (e : DocumentEntry) : Except String (ScanState × ScanResult) :=
  if e.depth > 0 ∧ ¬ mapHas st.dirTotals (parentPath e.path) then
    .error ("Directory not found: " ++ parentPath e.path)
  else
    .ok (stepState st e, mkResult e (stepState st e))

/-- Whether the emission limit is satisfied: `-1` is unbounded, `n ≥ 0`
stops after emitting `n` entries (spec section 4.5). -/
def limitReached (limit : Int) (count : Nat) : Bool :=
  decide (0 ≤ limit ∧ limit ≤ (count : Int))

/-- Sequential emission with limit control: once the limit is
satisfied the engine stops and returns without touching the remaining
entries (spec section 4.5); a scan-invariant violation aborts the whole
scan (spec section 4.3). -/
def runEntries (limit : Int) : List DocumentEntry → ScanState → Except String (List ScanResult)
  | [], _ => .ok []
  | e :: es, st =>
    if limitReached limit st.emittedCount then .ok []
    else
      match stepEntry st e with
      | .error msg => .error msg
      | .ok (st', r) =>
        match runEntries limit es st' with
        | .error msg => .error msg
        | .ok rs => .ok (r :: rs)

/-- Scan options (spec section 6 entry point; `skipStat` and
`skipSymbolicLink` affect only the external TreeWalker). -/
structure ScanOptions where
  limit : Int := -1
  sort : SortKey := .name
  order : SortOrder := .asc
deriving Repr, DecidableEq

/-- Modelled from the spec: `findStream` of the external `@nan0web/db`
base class — the lazy scan over the TreeWalker's entry sequence,
realized as the list of results it emits (or the fatal condition that
aborts it). -/
def findStream (opts : ScanOptions) (entries : List DocumentEntry) : Except String (List ScanResult) :=
  runEntries opts.limit (emissionOrder opts.sort opts.order entries) {}

/-! ### The DBFS document store (`src/DBFS.js`)

Embedded from the JavaScript source (the current revision, mirrored by
`types/DBFS.d.ts`). Documents are opaque values of a type `α`
(serialization codecs are out of scope, spec section 1); the on-disk
tree is a map from root-relative resolved paths to nodes. `unreadable`
models a node whose `statSync` raises (e.g. permission denied). -/

/-- One filesystem node: a stored document, a directory, or a node whose
stat raises. -/
inductive FSNode (α : Type) where
  | file (content : α)
  | dir
  | unreadable
deriving Repr, DecidableEq

/-- The store's state: the filesystem plus the per-instance `meta`
(stat cache) and `data` (document cache) maps of the source. -/
structure DBFSState (α : Type) where
  fs : JSMap (FSNode α) := []
  meta : JSMap DocumentStat := []
  data : JSMap Bool := []
deriving Repr, DecidableEq

/-- `existsSync` of `node:fs` on the modelled tree. -/
def existsSyncB {α : Type} (fs : JSMap (FSNode α)) (p : String) : Bool :=
  mapHas fs p

/-- `statSync` of `node:fs` (external) composed with
`DBFS.createDocumentStatFrom`: raises for a missing or unreadable path,
otherwise yields the node's stat snapshot. -/
def statSyncE {α : Type} (fs : JSMap (FSNode α)) (p : String) : Except String DocumentStat :=
  match mapGet fs p with
  | none => .error "File not found"
  | some (.file _) => .ok { isFile := true, exists_ := true }
  | some .dir => .ok { isDirectory := true, exists_ := true }
  | some .unreadable => .error "EACCES: permission denied"

/-- `statDocument` (source lines 97-112): resolve, no access check; a
missing path yields a stat carrying the "Document not found" error, a
raising `statSync` is caught and its error embedded; never throws. -/
def statDocument {α : Type} (st : DBFSState α) (uri : String) : DocumentStat :=
  let file := resolveUri uri
  if ¬ existsSyncB st.fs file then { error := some "Document not found" }
  else
    match statSyncE st.fs file with
    | .ok s => s
    | .error err => { error := some err }

/-- `ensureAccess` (source lines 230-241): the base-class check
(external, modelled as granting), then the `/llm.config.js` allowlist,
then the containment check on the resolved path. The `level`
(`"r"`/`"w"`/`"d"`) is forwarded to the external base class only. -/
def ensureAccess (uri : String) (_level : String) : Except String Bool :=
  let path := resolveUri uri
  if strEndsWith uri "/llm.config.js" then .ok true
  else if strStartsWith path ".." then .error "No access outside of the db container"
  else .ok true

/-- All directories `mkdirSync(dir, {recursive: true})` creates: every
prefix of `dir`, shallowest first. -/
def mkdirTargets (dir : String) : List String :=
  (ancestorPaths dir).reverse ++ (if dir = "" then [] else [dir])

/-- `mkdirSync` with `recursive: true`: create each missing prefix,
leaving existing nodes alone. -/
def mkdirP {α : Type} (fs : JSMap (FSNode α)) (dir : String) : JSMap (FSNode α) :=
  (mkdirTargets dir).foldl (fun m d => if mapHas m d then m else mapSet m d .dir) fs

/-- `_buildPath` (source lines 148-152): `mkdirSync` of
`resolve(uri, "..")`, the parent of the resolved path. -/
def _buildPath {α : Type} (st : DBFSState α) (uri : String) : DBFSState α :=
  { st with fs := mkdirP st.fs (parentPath (resolveUri uri)) }

/-- Modelled from the spec: `save` of the external `nanoweb-fs` package
writes the document at the path and reports success (the pretty-print
arguments of the structured-format call do not change the stored
value). -/
def fsSave {α : Type} (fs : JSMap (FSNode α)) (path : String) (doc : α) : JSMap (FSNode α) :=
  mapSet fs path (.file doc)

/-- Modelled from the spec: `load` of the external `nanoweb-fs` package
parses a stored document back to its value. -/
def fsLoad {α : Type} (fs : JSMap (FSNode α)) (path : String) : Option α :=
  match mapGet fs path with
  | some (.file v) => some v
  | _ => none

/-- Modelled from the spec: `loadFile` of the external `nanoweb-fs`
package reads the raw stored document. -/
def fsLoadFile {α : Type} (fs : JSMap (FSNode α)) (path : String) : Option α :=
  fsLoad fs path

/-- The ordered saver chain (source `savers`, lines 23-28): the
structured-format saver handles `.json`, the generic saver handles
everything; `none` is the `false` sentinel of a handler that declines.
The chain's result is the filesystem after the first saver that
reports success. -/
def saverChain {α : Type} (fs : JSMap (FSNode α)) (path : String) (doc : α) (ext : String) : Option (JSMap (FSNode α)) :=
  match (if ext = ".json" then some (fsSave fs path doc) else none) with
  | some fs1 => some fs1
  | none => some (fsSave fs path doc)

/-- `saveDocument` (source lines 160-175): access check, build the
parent path, dispatch through the saver chain; on success refresh the
`meta` stat cache, invalidate the cached document value and return
`true`; the post-loop branch returns `false`. -/
def saveDocument {α : Type} (st : DBFSState α) (uri : String) (doc : α) : Except String (DBFSState α × Bool) :=
  match ensureAccess uri "w" with
  | .error e => .error e
  | .ok _ =>
    let st0 := _buildPath st uri
    let file := resolveUri uri
    let ext := extnameFn uri
    match saverChain st0.fs file doc ext with
    | some fs1 =>
      let st1 : DBFSState α := { st0 with fs := fs1 }
      let stat := statDocument st1 uri
      .ok ({ st1 with meta := mapSet st1.meta uri stat,
                      data := mapSet st1.data uri false }, true)
    | none => .ok (st0, false)


/-- The ordered loader chain (source `loaders`, lines 12-17): the text
loader handles `.txt` via `loadFile`, the generic loader delegates to
`load`; `none` is the declining sentinel. -/
def loaderChain {α : Type} (fs : JSMap (FSNode α)) (path : String) (ext : String) : Option α :=
  match (if ext = ".txt" then fsLoadFile fs path else none) with
  | some v => some v
  | none => fsLoad fs path

/-- `loadDocument`/`loadDocumentAs` (source lines 119-142): access
check, missing file returns the caller's default, otherwise the first
loader that reports success wins; `.ok none` is the post-loop `false`. -/
def loadDocument {α : Type} (st : DBFSState α) (uri : String) (defaultValue : α) : Except String (Option α) :=
  match ensureAccess uri "r" with
  | .error e => .error e
  | .ok _ =>
    let file := resolveUri uri
    if ¬ existsSyncB st.fs file then .ok (some defaultValue)
    else
      let ext := extnameFn uri
      match loaderChain st.fs file ext with
      | some v => .ok (some v)
      | none => .ok none

/-- `rmdirSync` of `node:fs` (external): fails on a directory that
still has entries beneath it, otherwise removes the node. -/
def rmdirSyncE {α : Type} (fs : JSMap (FSNode α)) (p : String) : Except String (JSMap (FSNode α)) :=
  if (fs.map (fun q => q.1)).any (fun k => strStartsWith k (p ++ "/")) then
    .error "ENOTEMPTY: directory not empty"
  else .ok (mapDelete fs p)

/-- `unlinkSync` of `node:fs` (external). -/
def unlinkSync {α : Type} (fs : JSMap (FSNode α)) (p : String) : JSMap (FSNode α) :=
  mapDelete fs p

/-- `dropDocument` (source lines 199-222): access check; a non-existing
target returns `false`; a directory with tracked descendants in the
`meta` cache raises before anything is deleted, an empty one is removed
with its cache entries; a file is unlinked and the cache entries are
dropped once the stat confirms removal. -/
def dropDocument {α : Type} (st : DBFSState α) (uri : String) : Except String (DBFSState α × Bool) :=
  match ensureAccess uri "d" with
  | .error e => .error e
  | .ok _ =>
    let file := resolveUri uri
    let stat := statDocument st uri
    if ¬ stat.exists_ then .ok (st, false)
    else if stat.isDirectory then
      let nested := ((st.meta.map (fun q => q.1)).filter
        (fun u => strStartsWith u (file ++ "/"))).length
      if nested > 0 then .error "Directory has children, delete them first"
      else
        match rmdirSyncE st.fs file with
        | .error e => .error e
        | .ok fs1 =>
          .ok ({ st with fs := fs1, meta := mapDelete st.meta file,
                         data := mapDelete st.data file }, true)
    else
      let st1 : DBFSState α := { st with fs := unlinkSync st.fs file }
      let stat2 := statDocument st1 uri
      if ¬ stat2.exists_ then
        .ok ({ st1 with data := mapDelete st1.data file,
                        meta := mapDelete st1.meta file }, true)
      else .ok (st1, false)

/-- `readdirSync(path, {withFileTypes: true})` (external): the names of
the immediate children of `path` in the modelled tree. -/
def readdirNames {α : Type} (fs : JSMap (FSNode α)) (path : String) : List String :=
  ((fs.map (fun q => q.1)).filter (fun k => parentPath k = path)).map baseName

/-- Child path of a directory entry name. -/
def childPath (path n : String) : String :=
  if path = "" then n else path ++ "/" ++ n

/-- The JavaScript comparator of `listDir`
(`Number(b.stat.isDirectory) - Number(a.stat.isDirectory)`): `a` stays
before `b` exactly when the comparator is non-positive; `Array.sort` is
a stable sort by this relation. -/
def dirFirstLe (a b : DocumentEntry) : Prop :=
  ((if b.stat.isDirectory then (1 : Int) else 0) -
    (if a.stat.isDirectory then (1 : Int) else 0)) ≤ 0

instance : DecidableRel dirFirstLe :=
  fun a b => by unfold dirFirstLe; infer_instance

/-- `listDir` (source lines 249-272): read the directory, stat every
entry (a raising stat is caught and embedded as the entry's error
stat), then the stable directory-first sort. -/
def listDir {α : Type} (st : DBFSState α) (uri : String) (depth : Nat) (skipStat : Bool) : List DocumentEntry :=
  let path := resolveUri uri
  let names := readdirNames st.fs path
  let files := names.map (fun n =>
    let stat :=
      if skipStat then {}
      else
        match statSyncE st.fs (childPath path n) with
        | .ok s => s
        | .error err => { error := some err }
    { stat := stat, name := n, depth := depth : DocumentEntry })
  List.insertionSort dirFirstLe files

/-! ### The states an error step produces

Explicit forms of the state and result `stepEntry` yields on an entry
whose stat carries an error (spec sections 4.2-4.3): the error map is
extended, every aggregate is untouched, the entry is still counted. -/

/-- The scan state after emitting an entry whose stat carries `err`. -/
def stepErrState (st : ScanState) (e : DocumentEntry) (err : String) : ScanState :=
  { st with errors := mapSet st.errors e.path err,
            emittedCount := st.emittedCount + 1 }

/-- The result emitted for an entry whose stat carries `err`. -/
def stepErrResult (st : ScanState) (e : DocumentEntry) (err : String) : ScanResult :=
  { file := e, dirs := st.dirTotals, top := st.topTotals,
    totalSize := (st.totalDirs, st.totalFiles),
    errors := mapSet st.errors e.path err }

/-- Directory entries precede file entries: wherever a directory entry
appears after some entry of the list, that earlier entry is a directory
as well. -/
def dirsBeforeFiles (l : List DocumentEntry) : Prop :=
  l.Pairwise (fun a b => b.stat.isDirectory = true → a.stat.isDirectory = true)

/-! ### Concrete scenarios from the repository's tests

The walker sequences of the `findStream()` suite
(`src/findStream.test.js`) and the concrete store states used to
instantiate the theorems below. -/

/-- A test walker entry (the tests set `path`, `name`, `depth`, stat). -/
def mkEnt (p : String) (d : Nat) (st : DocumentStat) : DocumentEntry :=
  { path := p, name := p, depth := d, stat := st }

/-- The three entries of the "should respect limit option" test. -/
def limitEnts : List DocumentEntry :=
  [ mkEnt "a.txt" 0 { size := 10, mtimeMs := 1000 },
    mkEnt "b.txt" 0 { size := 20, mtimeMs := 2000 },
    mkEnt "c.txt" 0 { size := 30, mtimeMs := 3000 } ]

/-- The unbounded scan of `limitEnts` (all three are emitted). -/
def limitRs : List ScanResult :=
  match findStream { limit := -1, sort := .name, order := .asc } limitEnts with
  | .ok rs => rs
  | .error _ => []

/-- The three entries of the "should sort by mtime desc" test. -/
def mtimeEnts : List DocumentEntry :=
  [ mkEnt "a.txt" 0 { size := 10, mtimeMs := 1000 },
    mkEnt "b.txt" 0 { size := 20, mtimeMs := 3000 },
    mkEnt "c.txt" 0 { size := 30, mtimeMs := 2000 } ]

/-- The three entries of the "should sort by size asc" test. -/
def sizeEnts : List DocumentEntry :=
  [ mkEnt "a.txt" 0 { size := 30, mtimeMs := 1000 },
    mkEnt "b.txt" 0 { size := 10, mtimeMs := 3000 },
    mkEnt "c.txt" 0 { size := 20, mtimeMs := 2000 } ]

/-- The error-carrying second entry of the "should handle errors in
stat and collect them" test. -/
def errEnt : DocumentEntry :=
  mkEnt "b.txt" 0 { size := 20, mtimeMs := 2000, error := some "stat error" }

/-- The scan state after the first (error-free) entry `a.txt` of that
test has been emitted. -/
def errScanState : ScanState :=
  { topTotals := [("a.txt", 10)], totalFiles := 10, emittedCount := 1 }

/-- The orphan entry of the "should throw error if directory parent
not found" test: depth 1, parent `missingDir` never emitted. -/
def orphanEnt : DocumentEntry :=
  mkEnt "missingDir/file.txt" 1 { size := 10, mtimeMs := 1000 }

/-- A file and a directory sharing one sibling group (`C1` witness). -/
def wFile : DocumentEntry :=
  mkEnt "w.txt" 0 { size := 1, mtimeMs := 1, isFile := true }

/-- The directory sibling of `wFile`. -/
def wDir : DocumentEntry :=
  mkEnt "wd" 0 { size := 0, mtimeMs := 1, isDirectory := true }

/-- A store with one directory and two files at the root (`C1` witness
for `listDir`). -/
def wListState : DBFSState Unit :=
  { fs := [("z.txt", .file ()), ("zd", .dir), ("y.txt", .file ())] }

/-- A store with an unreadable node (`C9` witness). -/
def wLockedState : DBFSState Unit :=
  { fs := [("locked.txt", .unreadable)] }

/-- A store with a directory that has a tracked descendant in `meta`
(`C8` witness). -/
def wDropState : DBFSState Unit :=
  { fs := [("d", .dir), ("d/x.txt", .file ())],
    meta := [("d/x.txt", { isFile := true, exists_ := true })] }

/-- The save of the file-lifecycle test (`C7` witness). -/
def saveC7 : Except String (DBFSState String × Bool) :=
  saveDocument {} "users/user1.json" "alice"

/-- The store state that save produces. -/
def stC7 : DBFSState String :=
  match saveC7 with
  | .ok (s, _) => s
  | .error _ => {}

/-- A save under a generic (non-`.json`) extension (`C10` witness). -/
def saveC10 : Except String (DBFSState String × Bool) :=
  saveDocument {} "notes/readme.md" "hello"

/-- The store state that save produces. -/
def stC10 : DBFSState String :=
  match saveC10 with
  | .ok (s, _) => s
  | .error _ => {}

/-- The Boolean that save returns. -/
def bC10 : Bool :=
  match saveC10 with
  | .ok (_, b) => b
  | .error _ => false

/-! ### Order lemmas for the sibling-group sort -/

theorem lexLe_total (as : List Char) : ∀ bs, lexLe as bs = true ∨ lexLe bs as = true := by
  induction as with
  | nil => intro bs; left; rfl
  | cons a as ih =>
    intro bs
    cases bs with
    | nil => right; rfl
    | cons b bs =>
      by_cases h : a.toNat = b.toNat
      · rcases ih bs with hl | hl
        · left; simp [lexLe, h, hl]
        · right; simp [lexLe, h.symm, hl]
      · rcases Nat.lt_or_ge a.toNat b.toNat with hlt | hge
        · left; simp [lexLe, h, hlt]
        · right
          have h2 : b.toNat ≠ a.toNat := fun he => h he.symm
          have hlt : b.toNat < a.toNat := Nat.lt_of_le_of_ne hge h2
          simp [lexLe, h2, hlt]

theorem lexLe_trans : ∀ {as bs cs : List Char},
    lexLe as bs = true → lexLe bs cs = true → lexLe as cs = true
  | [], _, _, _, _ => rfl
  | _ :: _, [], _, h1, _ => by simp [lexLe] at h1
  | _ :: _, _ :: _, [], _, h2 => by simp [lexLe] at h2
  | a :: as, b :: bs, c :: cs, h1, h2 => by
    simp only [lexLe] at h1 h2 ⊢
    by_cases hab : a.toNat = b.toNat <;> by_cases hbc : b.toNat = c.toNat
    · rw [if_pos hab] at h1
      rw [if_pos hbc] at h2
      rw [if_pos (hab.trans hbc)]
      exact lexLe_trans h1 h2
    · rw [if_neg hbc] at h2
      have hac : a.toNat ≠ c.toNat := by rw [hab]; exact hbc
      rw [if_neg hac, hab]
      exact h2
    · rw [if_neg hab] at h1
      have hac : a.toNat ≠ c.toNat := by rw [← hbc]; exact hab
      rw [if_neg hac, ← hbc]
      exact h1
    · rw [if_neg hab] at h1
      rw [if_neg hbc] at h2
      have l1 := of_decide_eq_true h1
      have l2 := of_decide_eq_true h2
      have hac : a.toNat < c.toNat := Nat.lt_trans l1 l2
      rw [if_neg (Nat.ne_of_lt hac)]
      exact decide_eq_true hac

theorem keyLeB_total (s : SortKey) (o : SortOrder) (a b : DocumentEntry) :
    keyLeB s o a b = true ∨ keyLeB s o b a = true := by
  cases s <;> cases o <;> simp only [keyLeB, strLeB, decide_eq_true_eq]
  · exact lexLe_total _ _
  · exact lexLe_total _ _
  · exact Nat.le_total _ _
  · exact Nat.le_total _ _
  · exact Nat.le_total _ _
  · exact Nat.le_total _ _

theorem keyLeB_trans (s : SortKey) (o : SortOrder) {a b c : DocumentEntry}
    (h1 : keyLeB s o a b = true) (h2 : keyLeB s o b c = true) :
    keyLeB s o a c = true := by
  cases s <;> cases o <;>
    simp only [keyLeB, strLeB, decide_eq_true_eq] at h1 h2 ⊢
  · exact lexLe_trans h1 h2
  · exact lexLe_trans h2 h1
  · omega
  · omega
  · omega
  · omega

theorem entLe_total (s : SortKey) (o : SortOrder) (a b : DocumentEntry) :
    entLe s o a b ∨ entLe s o b a := by
  rcases Nat.lt_trichotomy (dirRank a) (dirRank b) with h | h | h
  · exact Or.inl (Or.inl h)
  · rcases keyLeB_total s o a b with hk | hk
    · exact Or.inl (Or.inr ⟨h, hk⟩)
    · exact Or.inr (Or.inr ⟨h.symm, hk⟩)
  · exact Or.inr (Or.inl h)

theorem entLe_trans (s : SortKey) (o : SortOrder) {a b c : DocumentEntry}
    (h1 : entLe s o a b) (h2 : entLe s o b c) : entLe s o a c := by
  rcases h1 with h1 | ⟨h1, k1⟩ <;> rcases h2 with h2 | ⟨h2, k2⟩
  · exact Or.inl (Nat.lt_trans h1 h2)
  · exact Or.inl (h2 ▸ h1)
  · exact Or.inl (h1 ▸ h2)
  · exact Or.inr ⟨h1.trans h2, keyLeB_trans s o k1 k2⟩

theorem sorted_sortGroup (s : SortKey) (o : SortOrder) (g : List DocumentEntry) :
    (sortGroup s o g).Sorted (entLe s o) := by
  letI : IsTotal DocumentEntry (entLe s o) := ⟨entLe_total s o⟩
  letI : IsTrans DocumentEntry (entLe s o) := ⟨fun a b c => entLe_trans s o⟩
  exact List.sorted_insertionSort _ _

theorem entLe_dirsFirst {s : SortKey} {o : SortOrder} {a b : DocumentEntry}
    (h : entLe s o a b) : b.stat.isDirectory = true → a.stat.isDirectory = true := by
  intro hb
  by_cases ha : a.stat.isDirectory = true
  · exact ha
  · exfalso
    rcases h with h | ⟨h, _⟩
    · simp [dirRank, hb] at h
    · simp [dirRank, hb, ha] at h

theorem dirsBeforeFiles_sortGroup (s : SortKey) (o : SortOrder) (g : List DocumentEntry) :
    dirsBeforeFiles (sortGroup s o g) :=
  (sorted_sortGroup s o g).imp entLe_dirsFirst

theorem dirFirstLe_total (a b : DocumentEntry) : dirFirstLe a b ∨ dirFirstLe b a := by
  unfold dirFirstLe
  by_cases ha : a.stat.isDirectory <;> by_cases hb : b.stat.isDirectory <;>
    simp [ha, hb]

theorem dirFirstLe_trans {a b c : DocumentEntry}
    (h1 : dirFirstLe a b) (h2 : dirFirstLe b c) : dirFirstLe a c := by
  unfold dirFirstLe at h1 h2 ⊢
  omega

theorem dirFirstLe_dirsFirst {a b : DocumentEntry} (h : dirFirstLe a b) :
    b.stat.isDirectory = true → a.stat.isDirectory = true := by
  intro hb
  by_cases ha : a.stat.isDirectory = true
  · exact ha
  · exfalso
    unfold dirFirstLe at h
    simp [ha, hb] at h

theorem dirsBeforeFiles_listDir {α : Type} (st : DBFSState α) (uri : String)
    (depth : Nat) (skipStat : Bool) :
    dirsBeforeFiles (listDir st uri depth skipStat) := by
  letI : IsTotal DocumentEntry dirFirstLe := ⟨dirFirstLe_total⟩
  letI : IsTrans DocumentEntry dirFirstLe := ⟨fun a b c => dirFirstLe_trans⟩
  exact (List.sorted_insertionSort _ _).imp dirFirstLe_dirsFirst

/-! ### Lemmas about the JavaScript `Map` model -/

theorem mapGet_cons {β : Type} (p : String × β) (m : JSMap β) (k : String) :
    mapGet (p :: m) k = if p.1 = k then some p.2 else mapGet m k := by
  by_cases h : p.1 = k
  · simp [mapGet, List.find?, h]
  · simp [mapGet, List.find?, h]

theorem mapHas_cons {β : Type} (p : String × β) (m : JSMap β) (k : String) :
    mapHas (p :: m) k = if p.1 = k then true else mapHas m k := by
  by_cases h : p.1 = k <;> simp [mapHas, mapGet_cons, h]

theorem mapGet_append_single {β : Type} {m : JSMap β} {k : String} (v : β)
    (h : mapHas m k = false) : mapGet (m ++ [(k, v)]) k = some v := by
  induction m with
  | nil => simp [mapGet, List.find?]
  | cons p m ih =>
    rw [mapHas_cons] at h
    by_cases hp : p.1 = k
    · rw [if_pos hp] at h
      exact absurd h (by simp)
    · rw [if_neg hp] at h
      rw [List.cons_append, mapGet_cons, if_neg hp]
      exact ih h

theorem mapSet_of_not_has {β : Type} {m : JSMap β} {k : String} (v : β)
    (h : mapHas m k = false) : mapSet m k v = m ++ [(k, v)] := by
  unfold mapSet
  rw [h]
  simp

theorem mapGet_overwrite {β : Type} {m : JSMap β} {k : String} (v : β)
    (h : mapHas m k = true) :
    mapGet (m.map (fun p => if p.1 = k then (k, v) else p)) k = some v := by
  induction m with
  | nil => simp [mapHas, mapGet, List.find?] at h
  | cons p m ih =>
    by_cases hp : p.1 = k
    · simp only [List.map_cons, if_pos hp]
      rw [mapGet_cons]
      simp
    · rw [mapHas_cons, if_neg hp] at h
      simp only [List.map_cons, if_neg hp]
      rw [mapGet_cons, if_neg hp]
      exact ih h

theorem mapGet_mapSet_self {β : Type} (m : JSMap β) (k : String) (v : β) :
    mapGet (mapSet m k v) k = some v := by
  unfold mapSet
  by_cases h : mapHas m k
  · rw [if_pos h]
    exact mapGet_overwrite v h
  · rw [if_neg h]
    exact mapGet_append_single v (by simpa using h)

theorem mapHas_mapSet_self {β : Type} (m : JSMap β) (k : String) (v : β) :
    mapHas (mapSet m k v) k = true := by
  simp [mapHas, mapGet_mapSet_self]

theorem length_mapSet_of_not_has {β : Type} {m : JSMap β} {k : String} (v : β)
    (h : mapHas m k = false) : (mapSet m k v).length = m.length + 1 := by
  rw [mapSet_of_not_has v h]
  simp

/-! ### Lemmas about the scan engine -/

theorem limitReached_neg_one (c : Nat) : limitReached (-1) c = false := by
  unfold limitReached
  simp only [decide_eq_false_iff_not]
  rintro ⟨h, _⟩
  omega

theorem limitReached_coe (n c : Nat) :
    limitReached ((n : Nat) : Int) c = decide (n ≤ c) := by
  unfold limitReached
  exact decide_eq_decide.mpr (by omega)

theorem stepState_emittedCount (st : ScanState) (e : DocumentEntry) :
    (stepState st e).emittedCount = st.emittedCount + 1 := by
  unfold stepState
  rcases e.stat.error with _ | err
  · by_cases hd : e.stat.isDirectory <;> simp [hd]
  · simp

theorem runEntries_unbounded_length :
    ∀ {l : List DocumentEntry} {st : ScanState} {rs : List ScanResult},
      runEntries (-1) l st = .ok rs → rs.length = l.length := by
  intro l
  induction l with
  | nil =>
    intro st rs h
    unfold runEntries at h
    cases h
    rfl
  | cons e es ih =>
    intro st rs h
    unfold runEntries at h
    rw [limitReached_neg_one, if_neg (by simp)] at h
    cases hstep : stepEntry st e with
    | error msg => rw [hstep] at h; cases h
    | ok p =>
      obtain ⟨st1, r⟩ := p
      rw [hstep] at h
      simp only [] at h
      cases hrec : runEntries (-1) es st1 with
      | error msg => rw [hrec] at h; cases h
      | ok rs2 =>
        rw [hrec] at h
        cases h
        simp [ih hrec]

theorem runEntries_take :
    ∀ {l : List DocumentEntry} {st : ScanState} {rs : List ScanResult},
      runEntries (-1) l st = .ok rs → ∀ n : Nat,
        runEntries ((n : Nat) : Int) l st = .ok (rs.take (n - st.emittedCount)) := by
  intro l
  induction l with
  | nil =>
    intro st rs h n
    unfold runEntries at h ⊢
    cases h
    simp
  | cons e es ih =>
    intro st rs h n
    unfold runEntries at h ⊢
    rw [limitReached_neg_one, if_neg (by simp)] at h
    rw [limitReached_coe]
    by_cases hn : n ≤ st.emittedCount
    · rw [if_pos (by simpa using hn)]
      have hz : n - st.emittedCount = 0 := by omega
      rw [hz]
      simp
    · rw [if_neg (by simpa using hn)]
      cases hstep : stepEntry st e with
      | error msg => rw [hstep] at h; cases h
      | ok p =>
        obtain ⟨st1, r⟩ := p
        rw [hstep] at h
        simp only [] at h
        cases hrec : runEntries (-1) es st1 with
        | error msg => rw [hrec] at h; cases h
        | ok rs2 =>
          rw [hrec] at h
          cases h
          have hcount : st1.emittedCount = st.emittedCount + 1 := by
            have hst1 : st1 = stepState st e := by
              unfold stepEntry at hstep
              split at hstep
              · cases hstep
              · cases hstep; rfl
            rw [hst1]
            exact stepState_emittedCount st e
          simp only []
          rw [ih hrec n, hcount]
          have hsplit : n - st.emittedCount = (n - (st.emittedCount + 1)) + 1 := by omega
          rw [hsplit]
          simp [List.take_succ_cons]

theorem groupAux_flatten (xs : List DocumentEntry) :
    ∀ (k : String × Nat) (acc : List DocumentEntry),
      (groupAux xs k acc).flatten = acc.reverse ++ xs := by
  induction xs with
  | nil => intro k acc; simp [groupAux]
  | cons x xs ih =>
    intro k acc
    unfold groupAux
    by_cases h : siblingKey x = k
    · rw [if_pos h, ih]
      simp
    · rw [if_neg h]
      simp [ih]

theorem groupSiblings_flatten (l : List DocumentEntry) :
    (groupSiblings l).flatten = l := by
  cases l with
  | nil => rfl
  | cons x xs =>
    unfold groupSiblings
    rw [groupAux_flatten]
    rfl

theorem length_sortGroup (s : SortKey) (o : SortOrder) (g : List DocumentEntry) :
    (sortGroup s o g).length = g.length :=
  List.length_insertionSort _ _

theorem emissionOrder_length (s : SortKey) (o : SortOrder) (entries : List DocumentEntry) :
    (emissionOrder s o entries).length = entries.length := by
  unfold emissionOrder
  have h : ∀ gs : List (List DocumentEntry),
      ((gs.map (sortGroup s o)).flatten).length = gs.flatten.length := by
    intro gs
    induction gs with
    | nil => rfl
    | cons g gs ih => simp [length_sortGroup, ih]
  rw [h, groupSiblings_flatten]

/-! ### Lemmas about the store -/

theorem saverChain_eq {α : Type} (fs : JSMap (FSNode α)) (path : String) (doc : α)
    (ext : String) : saverChain fs path doc ext = some (fsSave fs path doc) := by
  unfold saverChain
  by_cases hj : ext = ".json" <;> simp [hj]

theorem statSyncE_exists {α : Type} {fs : JSMap (FSNode α)} {p : String}
    {s : DocumentStat} (h : statSyncE fs p = .ok s) : s.exists_ = true := by
  unfold statSyncE at h
  rcases hm : mapGet fs p with _ | node
  · rw [hm] at h; cases h
  · rcases node with v | _ | _ <;> rw [hm] at h <;> simp only [] at h <;>
      cases h <;> rfl

/-! ### The claims -/

/-- Claim C1: for every scan and every requested sort key in
{name, mtime, size} and direction in {asc, desc}, within each sibling
group (entries sharing the same parent and depth) every directory entry
is emitted before every file entry of that group — the engine's
emission order is exactly the concatenation of the sorted sibling
groups, and each sorted group puts all its directory entries before all
its file entries; and `listDir` returns directory entries before file
entries in its result list. -/
theorem claim_C1 :
    (∀ (s : SortKey) (o : SortOrder) (entries : List DocumentEntry),
      ∀ g ∈ (groupSiblings entries).map (sortGroup s o), dirsBeforeFiles g)
    ∧ (∀ (s : SortKey) (o : SortOrder) (entries : List DocumentEntry),
        emissionOrder s o entries = ((groupSiblings entries).map (sortGroup s o)).flatten)
    ∧ (∀ (α : Type) (st : DBFSState α) (uri : String) (depth : Nat) (skipStat : Bool),
        dirsBeforeFiles (listDir st uri depth skipStat)) := by
  refine ⟨?_, ?_, ?_⟩
  · intro s o entries g hg
    rcases List.mem_map.1 hg with ⟨g0, _, rfl⟩
    exact dirsBeforeFiles_sortGroup s o g0
  · intro s o entries
    rfl
  · intro α st uri depth skipStat
    exact dirsBeforeFiles_listDir st uri depth skipStat

/-- Witness for C1 at a concrete sibling group (a file walked before a
directory) and a concrete store. -/
theorem claim_C1_witness :
    dirsBeforeFiles (sortGroup .name .asc [wFile, wDir])
    ∧ dirsBeforeFiles (listDir wListState "" 0 false) := by
  constructor
  · exact claim_C1.1 SortKey.name SortOrder.asc [wFile, wDir] _ (by decide)
  · exact claim_C1.2.2 Unit wListState "" 0 false

/-- Claim C2: an entry whose stat carries an error is still emitted by
the stream (the scan is not aborted), `errors.get(path)` returns
exactly that error, `errors.size` increases by exactly one, and the
entry's size contributes nothing to `dirTotals`, `topTotals` or
`totals`. Stated on the engine's per-entry transition `stepEntry` and
on `runEntries`, the emission loop of `findStream`. -/
theorem claim_C2 (limit : Int) (st : ScanState) (e : DocumentEntry) (err : String)
    (es : List DocumentEntry)
    (herr : e.stat.error = some err)
    (hpar : e.depth = 0 ∨ mapHas st.dirTotals (parentPath e.path) = true)
    (hfresh : mapHas st.errors e.path = false)
    (hlim : limitReached limit st.emittedCount = false) :
    stepEntry st e = .ok (stepErrState st e err, stepErrResult st e err)
    ∧ (stepErrResult st e err).file = e
    ∧ mapGet (stepErrState st e err).errors e.path = some err
    ∧ (stepErrState st e err).errors.length = st.errors.length + 1
    ∧ (stepErrState st e err).dirTotals = st.dirTotals
    ∧ (stepErrState st e err).topTotals = st.topTotals
    ∧ (stepErrState st e err).totalDirs = st.totalDirs
    ∧ (stepErrState st e err).totalFiles = st.totalFiles
    ∧ (stepErrState st e err).emittedCount = st.emittedCount + 1
    ∧ runEntries limit (e :: es) st
        = Except.map (fun rs => stepErrResult st e err :: rs)
            (runEntries limit es (stepErrState st e err)) := by
  have hstate : stepState st e = stepErrState st e err := by
    unfold stepState stepErrState
    rw [herr]
  have hcond : ¬ (e.depth > 0 ∧ ¬ mapHas st.dirTotals (parentPath e.path) = true) := by
    rintro ⟨hd0, hp0⟩
    rcases hpar with h0 | h1
    · omega
    · exact hp0 h1
  have hstep : stepEntry st e = .ok (stepErrState st e err, stepErrResult st e err) := by
    unfold stepEntry
    rw [if_neg hcond, hstate]
    rfl
  refine ⟨hstep, rfl, ?_, ?_, rfl, rfl, rfl, rfl, rfl, ?_⟩
  · exact mapGet_mapSet_self st.errors e.path err
  · exact length_mapSet_of_not_has err hfresh
  · simp only [runEntries]
    rw [hlim]
    simp only [Bool.false_eq_true, if_false]
    rw [hstep]
    simp only []
    cases hrec : runEntries limit es (stepErrState st e err) with
    | error msg => rfl
    | ok rs => rfl

/-- Witness for C2 at the stat-error test: after `a.txt` has been
emitted, the error-carrying `b.txt` is still emitted, its error is
recorded under its path, the error map grows from zero to one entry,
and no aggregate moves (in particular `totals.files` stays 10,
excluding the 20-byte size of `b.txt`). -/
theorem claim_C2_witness :
    stepEntry errScanState errEnt
      = .ok (stepErrState errScanState errEnt "stat error",
             stepErrResult errScanState errEnt "stat error")
    ∧ mapGet (stepErrState errScanState errEnt "stat error").errors "b.txt"
        = some "stat error"
    ∧ (stepErrState errScanState errEnt "stat error").errors.length = 1
    ∧ (stepErrState errScanState errEnt "stat error").totalFiles = 10
    ∧ runEntries (-1) [errEnt] errScanState
        = Except.map (fun rs => stepErrResult errScanState errEnt "stat error" :: rs)
            (runEntries (-1) [] (stepErrState errScanState errEnt "stat error")) := by
  have h := claim_C2 (-1) errScanState errEnt "stat error" []
    (by decide) (Or.inl (by decide)) (by decide) (by decide)
  exact ⟨h.1, h.2.2.1, h.2.2.2.1, h.2.2.2.2.2.2.2.1,
         h.2.2.2.2.2.2.2.2.2⟩

/-- Claim C3: if the walker yields an entry whose declared parent
directory path was never emitted by this scan, the engine raises an
error identifying the missing parent path at the point of iteration and
emits nothing further (the result is the bare error, whatever entries
follow). -/
theorem claim_C3 (limit : Int) (st : ScanState) (e : DocumentEntry)
    (es : List DocumentEntry)
    (hd : 0 < e.depth)
    (hp : mapHas st.dirTotals (parentPath e.path) = false)
    (hlim : limitReached limit st.emittedCount = false) :
    runEntries limit (e :: es) st
      = .error ("Directory not found: " ++ parentPath e.path) := by
  simp only [runEntries]
  rw [hlim]
  simp only [Bool.false_eq_true, if_false]
  have hstep : stepEntry st e
      = .error ("Directory not found: " ++ parentPath e.path) := by
    unfold stepEntry
    rw [if_pos ⟨hd, by simp [hp]⟩]
  rw [hstep]

/-- Witness for C3 at the parent-not-found test: the single orphan
entry `missingDir/file.txt` (depth 1) makes the whole scan fail with
the message naming `missingDir`. -/
theorem claim_C3_witness :
    findStream { limit := -1, sort := .name, order := .asc } [orphanEnt]
      = .error "Directory not found: missingDir" := by
  have h := claim_C3 (-1) {} orphanEnt [] (by decide) (by decide) (by decide)
  exact h

/-- Claim C4: against any walker sequence that an unbounded scan fully
drains into `rs`, the scan with `limit = n ≥ 0` emits exactly the first
`min n rs.length` results (`rs.length` equals the number of available
entries), and `limit = -1` emits all of them; moreover once the limit
is satisfied the emission loop returns without performing any work on
whatever entries remain (no further stat results are consumed). -/
theorem claim_C4 (s : SortKey) (o : SortOrder) (entries : List DocumentEntry)
    (rs : List ScanResult)
    (h : findStream { limit := -1, sort := s, order := o } entries = .ok rs) :
    rs.length = entries.length
    ∧ (∀ n : Nat,
        findStream { limit := (n : Int), sort := s, order := o } entries
          = .ok (rs.take n))
    ∧ (∀ n : Nat, (rs.take n).length = min n entries.length)
    ∧ (∀ (n : Nat) (l : List DocumentEntry) (st : ScanState),
        n ≤ st.emittedCount → runEntries ((n : Nat) : Int) l st = .ok []) := by
  have h0 : runEntries (-1) (emissionOrder s o entries) {} = .ok rs := h
  have hlen : rs.length = entries.length :=
    (runEntries_unbounded_length h0).trans (emissionOrder_length s o entries)
  refine ⟨hlen, ?_, ?_, ?_⟩
  · intro n
    have h2 := runEntries_take h0 n
    show runEntries ((n : Nat) : Int) (emissionOrder s o entries) {} = .ok (rs.take n)
    simpa using h2
  · intro n
    rw [List.length_take, hlen]
  · intro n l st hle
    cases l with
    | nil => rfl
    | cons e es =>
      simp only [runEntries]
      rw [limitReached_coe]
      rw [if_pos (by simpa using hle)]

/-- Witness for C4 at the limit test: three depth-0 entries; `limit=2`
yields exactly the first two results of the full scan, which is two
results (`min 2 3`), the unbounded scan yields all three, and
`limit=0` consumes nothing at all. -/
theorem claim_C4_witness :
    findStream { limit := 2, sort := .name, order := .asc } limitEnts
      = .ok (limitRs.take 2)
    ∧ (limitRs.take 2).length = min 2 limitEnts.length
    ∧ (limitRs.take 2).length = 2
    ∧ limitRs.length = limitEnts.length
    ∧ runEntries ((0 : Nat) : Int) limitEnts {} = .ok [] := by
  have h := claim_C4 .name .asc limitEnts limitRs (by rfl)
  exact ⟨h.2.1 2, h.2.2.1 2, (h.2.2.1 2).trans (by decide), h.1,
         h.2.2.2 0 limitEnts {} (by decide)⟩

/-- Claim C5 (evaluation of the spec-mandated behavior at the failing
inputs of the repository's own sort tests): over one sibling group the
spec-modelled engine with `sort="mtime", order="desc"` emits the
`mtimeMs` values `[1000, 3000, 2000]` as `3000, 2000, 1000`
(`b.txt, c.txt, a.txt`), and with `sort="size", order="asc"` emits the
sizes `[30, 10, 20]` as `10, 20, 30` (`b.txt, c.txt, a.txt`) — exactly
the orders the repository's tests assert the implementation does NOT
produce (`assert.notDeepStrictEqual` in `src/findStream.test.js`). -/
theorem claim_C5 :
    Except.map (fun rs => rs.map (fun r => r.file.name))
        (findStream { limit := -1, sort := .mtime, order := .desc } mtimeEnts)
      = .ok ["b.txt", "c.txt", "a.txt"]
    ∧ Except.map (fun rs => rs.map (fun r => r.file.name))
        (findStream { limit := -1, sort := .size, order := .asc } sizeEnts)
      = .ok ["b.txt", "c.txt", "a.txt"] := by
  constructor <;> rfl

/-- Claim C6: `ensureAccess` raises the access-denied error exactly
when the resolved root-relative path escapes the configured root
(begins with `..`) and the uri does not end with the allowlisted
`/llm.config.js`; every uri ending with the allowlisted filename is
granted regardless of its resolved location. -/
theorem claim_C6 (uri : String) (level : String) :
    (ensureAccess uri level = .error "No access outside of the db container"
      ↔ strStartsWith (resolveUri uri) ".." = true
        ∧ strEndsWith uri "/llm.config.js" = false)
    ∧ (strEndsWith uri "/llm.config.js" = true → ensureAccess uri level = .ok true) := by
  by_cases he : strEndsWith uri "/llm.config.js" = true
  · have hacc : ensureAccess uri level = .ok true := by
      unfold ensureAccess
      rw [if_pos he]
    refine ⟨⟨fun h => ?_, fun h => ?_⟩, fun _ => hacc⟩
    · rw [hacc] at h
      cases h
    · rw [he] at h
      cases h.2
  · have hef : strEndsWith uri "/llm.config.js" = false := by
      simpa using he
    by_cases hs : strStartsWith (resolveUri uri) ".." = true
    · have hacc : ensureAccess uri level
          = .error "No access outside of the db container" := by
        unfold ensureAccess
        rw [if_neg he, if_pos hs]
      exact ⟨⟨fun _ => ⟨hs, hef⟩, fun _ => hacc⟩, fun h => absurd h he⟩
    · have hacc : ensureAccess uri level = .ok true := by
        unfold ensureAccess
        rw [if_neg he, if_neg hs]
      refine ⟨⟨fun h => ?_, fun h => absurd h.1 hs⟩, fun h => absurd h he⟩
      rw [hacc] at h
      cases h

/-- Witness for C6: an escaping uri is refused; a uri ending in the
allowlisted `/llm.config.js` is granted although it also escapes. -/
theorem claim_C6_witness :
    ensureAccess "../outside.txt" "r"
      = .error "No access outside of the db container"
    ∧ ensureAccess "../cfg/llm.config.js" "r" = .ok true :=
  ⟨(claim_C6 "../outside.txt" "r").1.mpr (by decide),
   (claim_C6 "../cfg/llm.config.js" "r").2 (by decide)⟩

/-- Loading from a state whose filesystem holds the saved document
under the resolved path returns that document (for any non-`.txt`
extension the generic loader parses it back). -/
theorem loadDocument_of_get {α : Type} (st1 : DBFSState α)
    (uri : String) (v d : α) (b : Bool)
    (hext : extnameFn uri = ".json")
    (hb : ensureAccess uri "r" = .ok b)
    (hget : mapGet st1.fs (resolveUri uri) = some (FSNode.file v)) :
    loadDocument st1 uri d = .ok (some v) := by
  unfold loadDocument
  rw [hb]
  simp only []
  have hfs : existsSyncB st1.fs (resolveUri uri) = true := by
    simp [existsSyncB, mapHas, hget]
  rw [if_neg (by simp [hfs])]
  have hld : loaderChain st1.fs (resolveUri uri) (extnameFn uri) = some v := by
    unfold loaderChain
    rw [hext]
    rw [if_neg (by decide : ¬ (".json" : String) = ".txt")]
    unfold fsLoad
    rw [hget]
  rw [hld]

/-- Claim C7: for a structured-format (`.json`) document, a successful
`saveDocument(uri, v)` followed by `loadDocument(uri)` returns exactly
the saved value. -/
theorem claim_C7 (α : Type) (st st1 : DBFSState α) (uri : String) (v d : α)
    (hext : extnameFn uri = ".json")
    (hsave : saveDocument st uri v = .ok (st1, true)) :
    loadDocument st1 uri d = .ok (some v) := by
  cases hacc : ensureAccess uri "w" with
  | error msg =>
    unfold saveDocument at hsave
    rw [hacc] at hsave
    cases hsave
  | ok b =>
    unfold saveDocument at hsave
    rw [hacc] at hsave
    simp only [] at hsave
    rw [saverChain_eq] at hsave
    simp only [Except.ok.injEq, Prod.mk.injEq, and_true] at hsave
    have hget : mapGet st1.fs (resolveUri uri) = some (FSNode.file v) := by
      rw [← hsave]
      dsimp only
      unfold fsSave
      rw [mapGet_mapSet_self]
    exact loadDocument_of_get st1 uri v d b hext hacc hget

/-- Witness for C7 at the file-lifecycle test: saving the value
`"alice"` under `users/user1.json` into an empty store and loading it
back returns exactly `"alice"`. -/
theorem claim_C7_witness :
    extnameFn "users/user1.json" = ".json"
    ∧ loadDocument stC7 "users/user1.json" "" = .ok (some "alice") :=
  ⟨by decide, claim_C7 String {} stC7 "users/user1.json" "alice" "" (by decide) (by rfl)⟩

/-- Claim C8: `dropDocument` returns `false` without raising whenever
the target does not exist, and raises the directory-not-empty error
(before anything is deleted) whenever the target is a directory that
still has tracked descendant entries in the `meta` cache. -/
theorem claim_C8 (α : Type) (st : DBFSState α) (uri : String)
    (hacc : ensureAccess uri "d" = .ok true) :
    ((statDocument st uri).exists_ = false → dropDocument st uri = .ok (st, false))
    ∧ ((statDocument st uri).isDirectory = true →
        (∃ u ∈ st.meta.map (fun q => q.1),
          strStartsWith u (resolveUri uri ++ "/") = true) →
        dropDocument st uri = .error "Directory has children, delete them first") := by
  constructor
  · intro hex
    unfold dropDocument
    rw [hacc]
    simp only []
    rw [hex]
    rw [if_pos (show ¬ false = true by simp)]
  · intro hdir hnested
    have hex : (statDocument st uri).exists_ = true := by
      unfold statDocument at hdir ⊢
      by_cases hfs : existsSyncB st.fs (resolveUri uri) = true
      · rw [if_neg (by simp [hfs])] at hdir ⊢
        cases hstat : statSyncE st.fs (resolveUri uri) with
        | ok s =>
          exact statSyncE_exists hstat
        | error err =>
          rw [hstat] at hdir
          cases hdir
      · rw [if_pos (by simpa using hfs)] at hdir
        cases hdir
    unfold dropDocument
    rw [hacc]
    simp only []
    rw [hex]
    simp only [not_true, if_false, Bool.true_eq_false, reduceIte]
    rw [hdir]
    simp only [if_pos rfl, reduceIte]
    rcases hnested with ⟨u, hu, hpre⟩
    have hmem : u ∈ (st.meta.map (fun q => q.1)).filter
        (fun u => strStartsWith u (resolveUri uri ++ "/")) :=
      List.mem_filter.mpr ⟨hu, hpre⟩
    have hlen : 0 < ((st.meta.map (fun q => q.1)).filter
        (fun u => strStartsWith u (resolveUri uri ++ "/"))).length :=
      List.length_pos_of_mem hmem
    rw [if_pos hlen]

/-- Witness for C8: dropping the absent `nope.txt` from an empty store
returns `false` without raising; dropping the directory `d`, which has
the tracked descendant `d/x.txt` in `meta`, raises. -/
theorem claim_C8_witness :
    dropDocument ({} : DBFSState Unit) "nope.txt" = .ok ({}, false)
    ∧ dropDocument wDropState "d"
        = .error "Directory has children, delete them first" := by
  constructor
  · exact (claim_C8 Unit {} "nope.txt" (by rfl)).1 (by decide)
  · exact (claim_C8 Unit wDropState "d" (by rfl)).2 (by decide)
      ⟨"d/x.txt", by decide, by decide⟩

/-- Claim C9: for every uri — no access check is performed, so escaping
uris included — whose resolved path is absent or unreadable,
`statDocument` returns (it is a total function, it never throws) a stat
whose error field is set and whose `exists` flag is cleared. -/
theorem claim_C9 (α : Type) (st : DBFSState α) (uri : String)
    (h : mapGet st.fs (resolveUri uri) = none
      ∨ mapGet st.fs (resolveUri uri) = some FSNode.unreadable) :
    (statDocument st uri).error.isSome = true
    ∧ (statDocument st uri).exists_ = false := by
  unfold statDocument
  rcases h with h | h
  · have hfs : existsSyncB st.fs (resolveUri uri) = false := by
      simp [existsSyncB, mapHas, h]
    rw [if_pos (by simp [hfs])]
    exact ⟨rfl, rfl⟩
  · have hfs : existsSyncB st.fs (resolveUri uri) = true := by
      simp [existsSyncB, mapHas, h]
    rw [if_neg (by simp [hfs])]
    have hstat : statSyncE st.fs (resolveUri uri)
        = .error "EACCES: permission denied" := by
      unfold statSyncE
      rw [h]
    rw [hstat]
    exact ⟨rfl, rfl⟩

/-- Witness for C9: the absent, root-escaping `../absent.txt` (showing
no access check intervenes) and the unreadable `locked.txt` both yield
error-carrying stats. -/
theorem claim_C9_witness :
    (statDocument wLockedState "../absent.txt").error.isSome = true
    ∧ (statDocument wLockedState "locked.txt").error.isSome = true
    ∧ (statDocument wLockedState "locked.txt").exists_ = false :=
  ⟨(claim_C9 Unit wLockedState "../absent.txt" (Or.inl (by decide))).1,
   (claim_C9 Unit wLockedState "locked.txt" (Or.inr (by decide))).1,
   (claim_C9 Unit wLockedState "locked.txt" (Or.inr (by decide))).2⟩

/-- Claim C10: whenever the save handlers do not throw — in the model
they are total — `saveDocument` returns `true`: the final saver in the
ordered chain handles any extension unconditionally, so whenever
`saveDocument` returns a Boolean at all, that Boolean is `true` and the
post-loop branch returning `false` is unreachable. -/
theorem claim_C10 (α : Type) (st st1 : DBFSState α) (uri : String) (doc : α)
    (b : Bool) (h : saveDocument st uri doc = .ok (st1, b)) : b = true := by
  cases hacc : ensureAccess uri "w" with
  | error msg =>
    unfold saveDocument at h
    rw [hacc] at h
    cases h
  | ok b2 =>
    unfold saveDocument at h
    rw [hacc] at h
    simp only [] at h
    rw [saverChain_eq] at h
    simp only [Except.ok.injEq, Prod.mk.injEq] at h
    exact h.2.symm

/-- Witness for C10: a save under the generic (non-`.json`) extension
`.md` returns `true`. -/
theorem claim_C10_witness : bC10 = true :=
  claim_C10 String {} stC10 "notes/readme.md" "hello" bC10 (by rfl)

end DBFS
